import Mathlib

/-!
Verification of the sample command-line integer sorter shipped in this
repository as two syntax-highlighting fixtures:

* `src/AvaloniaEdit.Demo/Resources/SampleFiles/source.c` — parse a
  comma-separated list of `long`s with `strtok`/`strtol`, bubble-sort the
  array with a swap-flag `while (true)` loop, print the result; usage
  message to `stderr` and exit code 1 on failure.
* `src/AvaloniaEdit.Demo/Resources/SampleFiles/source.cpp` — check the
  argument for the strict `", "` format, extract numbers with `atoi`,
  bubble-sort with a bounded pass loop, print; usage message to `stdout`
  and exit code always 0.

The definitions below are shallow embeddings of those functions; machine
`long`s are modelled as `Int` with explicit clamping at the 64-bit bounds
where the C library clamps.  The theorems settle the specification's
claims about the fixtures.
-/

namespace SortDemo

/-- One bubble pass over `a :: t`, as both sorters perform it: walk left to
right carrying the current element `a`, compare with the next element `b`,
swap when `arr[i] > arr[i+1]`, and record in the returned flag whether any
swap happened during the pass. -/
def onePassAux (a : Int) : List Int → List Int × Bool
  | [] => ([a], false)
  | b :: t =>
    if b < a then
      (b :: (onePassAux a t).1, true)
    else
      (a :: (onePassAux b t).1, (onePassAux b t).2)

/-- One full adjacent-pair pass over the array (`for (i = 0; i < n - 1; i++)`
in `bubble_sort` of `source.c`), returning the array after the pass and the
`had_to_swap` flag. -/
def onePass : List Int → List Int × Bool
  | [] => ([], false)
  | a :: t => onePassAux a t

/-- Number of inversions (out-of-order pairs) of a list.  This is the
termination measure for the `while (true)` loop of `bubble_sort`: a pass
that swaps strictly decreases it. -/
def inv : List Int → Nat
  | [] => 0
  | a :: t => t.countP (fun b => decide (b < a)) + inv t

/-- The `while (true)` loop of `bubble_sort` in `source.c`, with explicit
fuel: run one pass; if it swapped (`had_to_swap`), loop on the new array,
otherwise `break` with the current array.  `none` means the fuel was
exhausted before the loop exited; `bubbleLoop_halts` shows that fuel
`inv l + 1` always suffices. -/
def bubbleLoop : Nat → List Int → Option (List Int)
  | 0, _ => none
  | fuel + 1, l =>
    if (onePass l).2 then bubbleLoop fuel (onePass l).1 else some (onePass l).1

/-- Function `bubble_sort` from `source.c`: the swap-flag loop run with enough fuel
that it always exits through a swap-free pass (`bubbleLoop_halts`). -/
def bubble_sort (l : List Int) : List Int :=
  (bubbleLoop (inv l + 1) l).getD l

/-- The characters `isspace` accepts in the C locale; `strtol` skips them
before the number. -/
def isSpaceC (c : Char) : Bool :=
  c == ' ' || c == '\t' || c == '\n' || c == '\x0b' || c == '\x0c' || c == '\r'

/-- Sign handling of `strtol`/`atoi`: strip one optional `+` or `-`. -/
def splitSign : List Char → Bool × List Char
  | '-' :: t => (true, t)
  | '+' :: t => (false, t)
  | cs => (false, cs)

/-- Value of a decimal digit string, most significant digit first. -/
def digitsToNat (ds : List Char) : Nat :=
  ds.foldl (fun acc c => acc * 10 + (c.toNat - 48)) 0

/-- The digit run `strtol`/`atoi` consumes from `cs`: skip C whitespace,
strip one sign, take the longest run of decimal digits. -/
def numDigits (cs : List Char) : List Char :=
  ((splitSign (cs.dropWhile isSpaceC)).2).takeWhile Char.isDigit

/-- Whether the number `strtol`/`atoi` consumes from `cs` is negated. -/
def numNeg (cs : List Char) : Bool :=
  (splitSign (cs.dropWhile isSpaceC)).1

/-- Mathematical value of the numeric prefix of `cs` (0 when there are no
digits): the value `strtol(cs, NULL, 10)` computes before clamping. -/
def numVal (cs : List Char) : Int :=
  if numNeg cs then -(digitsToNat (numDigits cs) : Int)
  else (digitsToNat (numDigits cs) : Int)

/-- Constant `LONG_MAX` for the 64-bit `long` of the sample. -/
def LONG_MAX : Int := 2 ^ 63 - 1

/-- Constant `LONG_MIN` for the 64-bit `long` of the sample. -/
def LONG_MIN : Int := -(2 ^ 63)

/-- The call `strtol(token, NULL, 10)` as `parse_list` uses it: the converted value
together with the `errno != 0` observation made right after the call.  The
C library sets `errno` (to `ERANGE`, clamping the value) exactly when the
mathematical value lies outside the `long` range; a token with no digits
converts to 0 with `errno` left untouched. -/
def strtol (cs : List Char) : Int × Bool :=
  if numDigits cs = [] then (0, false)
  else if numVal cs < LONG_MIN then (LONG_MIN, true)
  else if LONG_MAX < numVal cs then (LONG_MAX, true)
  else (numVal cs, false)

/-- The calls `strtok(list, ",")` iterated to exhaustion: the maximal non-empty runs
of non-comma characters, in order (empty pieces between consecutive commas
are skipped by `strtok`). -/
def strtokAll (cs : List Char) : List (List Char) :=
  (cs.splitOn ',').filter (· ≠ [])

/-- The first loop of `parse_list`: count the commas of the argument. -/
def countCommas (cs : List Char) : Nat :=
  cs.countP (fun c => c == ',')

/-- The token loop of `parse_list`: convert each token with `strtol`,
aborting with failure as soon as `errno` is set. -/
def convertTokens : List (List Char) → Option (List Int)
  | [] => some []
  | t :: ts =>
    if (strtol t).2 then none
    else
      match convertTokens ts with
      | none => none
      | some vs => some ((strtol t).1 :: vs)

/-- Function `parse_list` from `source.c`.  It fails (`*arr = NULL; return 0`) when
the argument contains no comma or when a token's value overflows `long`;
otherwise it reports `commas + 1` elements and the values actually written
to the array — one per token, which is fewer than the reported count when
some pieces between commas are empty, leaving trailing `malloc`ed slots
unwritten. -/
def parse_list (cs : List Char) : Option (Nat × List Int) :=
  if countCommas cs = 0 then none
  else
    match convertTokens (strtokAll cs) with
    | none => none
    | some vals => some (countCommas cs + 1, vals)

/-- The array `parse_list` hands back on success: the written values
followed by the untouched tail of the fresh `malloc` block, whose contents
the model takes from `junk`. -/
def parsedArray (junk : Nat → Int) (n : Nat) (vals : List Int) : List Int :=
  vals ++ (List.range (n - vals.length)).map junk

/-- Function `print_array` from `source.c`, and byte-for-byte also the `print`
function of `source.cpp`: elements joined by `", "`, newline after the
last.  (Both are only ever called with at least two elements.) -/
def print_array : List Int → String
  | [] => ""
  | [a] => toString a ++ "\n"
  | a :: b :: t => toString a ++ ", " ++ print_array (b :: t)

/-- The usage message, identical in both fixtures. -/
def usageMsg : String :=
  "Usage: please provide a list of at least two integers to sort in the format \"1, 2, 3, 4, 5\"\n"

/-- Observable outcome of one process run: the bytes written to the two
output streams and the exit code. -/
structure ProcResult where
  out : String
  err : String
  exit : Nat
deriving DecidableEq, Repr

/-- Function `main` of `source.c`, applied to the command-line arguments that follow
the program name (`argc < 2` means that list is empty; arguments after the
first are never read).  `junk` models the unwritten slots of the array.
Falling off the end of `main` returns 0. -/
def cMain (junk : Nat → Int) : List String → ProcResult
  | [] => ⟨"", usageMsg, 1⟩
  | s :: _ =>
    match parse_list s.data with
    | none => ⟨"", usageMsg, 1⟩
    | some (n, vals) =>
      ⟨print_array (bubble_sort (parsedArray junk n vals)), "", 0⟩

/-- Reading `characters[i]` in `source.cpp`: one past the last character the
loop reads the terminating NUL byte. -/
def charAt (cs : List Char) (i : Nat) : Char :=
  cs.getD i (Char.ofNat 0)

/-- The format-check `while` loop of `main` in `source.cpp`: starting at
index 1 and stepping by 3, require `','` then `' '` at each position,
setting `commaSeparated` to true, and break with false on the first
mismatch; on normal exit return the last value of `commaSeparated`
(initially false).  `index` grows by 3 every iteration, so fuel
`cs.length + 1` is more than the loop can consume. -/
def formatLoop : Nat → List Char → Nat → Bool → Bool
  | 0, _, _, comma => comma
  | fuel + 1, cs, index, comma =>
    if index < cs.length then
      if charAt cs index = ',' ∧ charAt cs (index + 1) = ' ' then
        formatLoop fuel cs (index + 3) true
      else false
    else comma

/-- The `commaSeparated` flag after the format-check loop of `source.cpp`. -/
def commaSeparated (cs : List Char) : Bool :=
  formatLoop (cs.length + 1) cs 1 false

/-- The call `atoi(&characters[i])`: the numeric value of the suffix starting at
position `i`.  (`atoi` on a value outside `int` is undefined behaviour in
the source; the model keeps the mathematical value.) -/
def atoi (cs : List Char) : Int := numVal cs

/-- The extraction loop of `main` in `source.cpp`: at every index whose
character is neither `','` nor `' '`, push `atoi` of the argument's suffix
starting there. -/
def cppExtract : List Char → List Int
  | [] => []
  | c :: t =>
    if c ≠ ',' ∧ c ≠ ' ' then atoi (c :: t) :: cppExtract t
    else cppExtract t

/-- The `numbers` vector of `source.cpp` `main`: extracted only when the
format check succeeded, otherwise left empty. -/
def cppNumbers (cs : List Char) : List Int :=
  if commaSeparated cs then cppExtract cs else []

/-- The inner `for (j = 0; j < n - i - 1; j++)` pass of `bubbleSort` in
`source.cpp`: a bubble pass over the first `k = n - i` elements, leaving
the tail untouched, with the `swapped` flag. -/
def passOnFirst (l : List Int) (k : Nat) : List Int × Bool :=
  ((onePass (l.take k)).1 ++ l.drop k, (onePass (l.take k)).2)

/-- The outer `for (i = 0; i < n - 1; i++)` loop of `bubbleSort` in
`source.cpp`: `m` counts the remaining iterations, so the pass run at
`m + 1` remaining iterations covers the first `m + 2` elements, and the
loop breaks early after a swap-free pass. -/
def cppPasses : Nat → List Int → List Int
  | 0, l => l
  | m + 1, l =>
    if (passOnFirst l (m + 2)).2 then cppPasses m (passOnFirst l (m + 2)).1
    else (passOnFirst l (m + 2)).1

/-- Function `bubbleSort` from `source.cpp`, as its `main` invokes it
(`n = v.size()`, and the outer loop runs at most `n - 1` times). -/
def bubbleSort (l : List Int) : List Int :=
  cppPasses (l.length - 1) l

/-- Function `main` of `source.cpp`, applied to the arguments after the program
name.  Only a run with exactly one argument inspects it (`argc == 2`);
`numbers` stays empty otherwise.  Every path writes to `std::cout` only
and returns 0. -/
def cppMain : List String → ProcResult
  | [s] =>
    if (cppNumbers s.data).length < 2 then ⟨usageMsg, "", 0⟩
    else ⟨print_array (bubbleSort (cppNumbers s.data)), "", 0⟩
  | _ => ⟨usageMsg, "", 0⟩

end SortDemo

namespace SortDemo

theorem onePassAux_perm (a : Int) (t : List Int) :
    (onePassAux a t).1.Perm (a :: t) := by
  induction t generalizing a with
  | nil => simp [onePassAux]
  | cons b t ih =>
    by_cases h : b < a
    · simpa [onePassAux, h] using ((ih a).cons b).trans (List.Perm.swap a b t)
    · simpa [onePassAux, h] using (ih b).cons a

theorem onePass_perm (l : List Int) : (onePass l).1.Perm l := by
  cases l with
  | nil => simp [onePass]
  | cons a t => exact onePassAux_perm a t

theorem onePassAux_eq_of_not_swapped (a : Int) (t : List Int)
    (h : (onePassAux a t).2 = false) : (onePassAux a t).1 = a :: t := by
  induction t generalizing a with
  | nil => simp [onePassAux]
  | cons b t ih =>
    by_cases hba : b < a
    · simp [onePassAux, hba] at h
    · simp only [onePassAux, if_neg hba] at h ⊢
      simp [ih b h]

theorem onePassAux_chain_of_not_swapped (a : Int) (t : List Int)
    (h : (onePassAux a t).2 = false) : List.Chain' (· ≤ ·) (a :: t) := by
  induction t generalizing a with
  | nil => simp
  | cons b t ih =>
    by_cases hba : b < a
    · simp [onePassAux, hba] at h
    · simp only [onePassAux, if_neg hba] at h
      exact List.Chain'.cons (not_lt.mp hba) (ih b h)

theorem onePassAux_of_chain (a : Int) (t : List Int)
    (h : List.Chain' (· ≤ ·) (a :: t)) : onePassAux a t = (a :: t, false) := by
  induction t generalizing a with
  | nil => simp [onePassAux]
  | cons b t ih =>
    rw [List.chain'_cons] at h
    have hba : ¬ b < a := not_lt.mpr h.1
    simp [onePassAux, hba, ih b h.2]

theorem onePassAux_inv (a : Int) (t : List Int) :
    inv (onePassAux a t).1 ≤ inv (a :: t) ∧
      ((onePassAux a t).2 = true → inv (onePassAux a t).1 < inv (a :: t)) := by
  induction t generalizing a with
  | nil =>
    refine ⟨le_refl _, fun h => ?_⟩
    simp [onePassAux] at h
  | cons b t ih =>
    by_cases hba : b < a
    · have h1 : inv (onePassAux a t).1 ≤ inv (a :: t) := (ih a).1
      have hc : List.countP (fun x => decide (x < b)) (onePassAux a t).1
          = List.countP (fun x => decide (x < b)) (a :: t) :=
        (onePassAux_perm a t).countP_eq _
      have hL : inv (b :: (onePassAux a t).1)
          = List.countP (fun x => decide (x < b)) t + inv (onePassAux a t).1 := by

        rw [inv, hc, List.countP_cons]
        simp [not_lt.mpr (le_of_lt hba)]
      have hR : inv (a :: b :: t)
          = List.countP (fun x => decide (x < a)) t
            + List.countP (fun x => decide (x < b)) t + inv t + 1 := by
        rw [inv, inv, List.countP_cons]
        simp [hba]
        omega
      have hA : inv (a :: t)
          = List.countP (fun x => decide (x < a)) t + inv t := rfl
      have hlt : inv (b :: (onePassAux a t).1) < inv (a :: b :: t) := by
        rw [hL, hR]
        rw [hA] at h1
        omega
      refine ⟨?_, fun _ => ?_⟩
      · simpa [onePassAux, hba] using le_of_lt hlt
      · simpa [onePassAux, hba] using hlt
    · have h1 : inv (onePassAux b t).1 ≤ inv (b :: t) := (ih b).1
      have hc : List.countP (fun x => decide (x < a)) (onePassAux b t).1
          = List.countP (fun x => decide (x < a)) (b :: t) :=
        (onePassAux_perm b t).countP_eq _
      have hL : inv (a :: (onePassAux b t).1)
          = List.countP (fun x => decide (x < a)) (b :: t) + inv (onePassAux b t).1 := by
        rw [inv, hc]
      have hR : inv (a :: b :: t)
          = List.countP (fun x => decide (x < a)) (b :: t) + inv (b :: t) := rfl
      refine ⟨?_, fun hsw => ?_⟩
      · simp only [onePassAux, if_neg hba]
        rw [hL, hR]
        omega
      · simp only [onePassAux, if_neg hba] at hsw ⊢
        have h2 : inv (onePassAux b t).1 < inv (b :: t) := (ih b).2 hsw
        rw [hL, hR]
        omega

theorem onePass_inv_lt (l : List Int) (h : (onePass l).2 = true) :
    inv (onePass l).1 < inv l := by
  cases l with
  | nil => simp [onePass] at h
  | cons a t => exact (onePassAux_inv a t).2 h

theorem onePass_eq_of_not_swapped (l : List Int) (h : (onePass l).2 = false) :
    (onePass l).1 = l := by
  cases l with
  | nil => simp [onePass]
  | cons a t => exact onePassAux_eq_of_not_swapped a t h

theorem onePass_chain_of_not_swapped (l : List Int) (h : (onePass l).2 = false) :
    List.Chain' (· ≤ ·) l := by
  cases l with
  | nil => simp
  | cons a t => exact onePassAux_chain_of_not_swapped a t h

theorem onePass_of_chain (l : List Int) (h : List.Chain' (· ≤ ·) l) :
    onePass l = (l, false) := by
  cases l with
  | nil => rfl
  | cons a t => exact onePassAux_of_chain a t h

/-- The `while (true)` loop of `bubble_sort` halts: with any fuel above the
inversion count it exits through a swap-free pass, returning a sorted
permutation of the input. -/
theorem bubbleLoop_halts :
    ∀ fuel l, inv l < fuel →
      ∃ r, bubbleLoop fuel l = some r ∧ r.Perm l ∧ List.Chain' (· ≤ ·) r := by
  intro fuel
  induction fuel with
  | zero => exact fun l h => absurd h (Nat.not_lt_zero _)
  | succ fuel ih =>
    intro l h
    by_cases hsw : (onePass l).2 = true
    · have hlt := onePass_inv_lt l hsw
      obtain ⟨r, hr, hperm, hchain⟩ := ih (onePass l).1 (by omega)
      exact ⟨r, by simp [bubbleLoop, hsw, hr], hperm.trans (onePass_perm l), hchain⟩
    · have hsw' : (onePass l).2 = false := by simpa using hsw
      have heq := onePass_eq_of_not_swapped l hsw'
      refine ⟨(onePass l).1, by simp [bubbleLoop, hsw'], by rw [heq], ?_⟩
      rw [heq]
      exact onePass_chain_of_not_swapped l hsw'

theorem bubble_sort_run (l : List Int) :
    bubbleLoop (inv l + 1) l = some (bubble_sort l) ∧
      (bubble_sort l).Perm l ∧ List.Chain' (· ≤ ·) (bubble_sort l) := by
  obtain ⟨r, hr, hperm, hchain⟩ := bubbleLoop_halts (inv l + 1) l (Nat.lt_succ_self _)
  have hbs : bubble_sort l = r := by simp [bubble_sort, hr]
  rw [hbs]
  exact ⟨hr, hperm, hchain⟩

theorem bubble_sort_perm (l : List Int) : (bubble_sort l).Perm l :=
  (bubble_sort_run l).2.1

theorem bubble_sort_sorted (l : List Int) : List.Sorted (· ≤ ·) (bubble_sort l) :=
  List.chain'_iff_pairwise.mp (bubble_sort_run l).2.2

theorem bubble_sort_of_chain (l : List Int) (h : List.Chain' (· ≤ ·) l) :
    bubble_sort l = l := by
  have h2 := onePass_of_chain l h
  simp [bubble_sort, bubbleLoop, h2]

theorem onePassAux_last (a : Int) (t : List Int) :
    ∃ r M, (onePassAux a t).1 = r ++ [M] ∧ ∀ x ∈ a :: t, x ≤ M := by
  induction t generalizing a with
  | nil => exact ⟨[], a, rfl, by simp⟩
  | cons b t ih =>
    by_cases hba : b < a
    · obtain ⟨r, M, hr, hM⟩ := ih a
      refine ⟨b :: r, M, by simp [onePassAux, hba, hr], ?_⟩
      intro x hx
      rcases List.mem_cons.mp hx with rfl | hx
      · exact hM x (List.mem_cons_self _ _)
      rcases List.mem_cons.mp hx with rfl | hx
      · exact le_trans (le_of_lt hba) (hM a (List.mem_cons_self _ _))
      · exact hM x (List.mem_cons_of_mem _ hx)
    · obtain ⟨r, M, hr, hM⟩ := ih b
      refine ⟨a :: r, M, by simp [onePassAux, hba, hr], ?_⟩
      intro x hx
      rcases List.mem_cons.mp hx with rfl | hx
      · exact le_trans (not_lt.mp hba) (hM b (List.mem_cons_self _ _))
      · exact hM x hx

theorem onePass_last (l : List Int) (h : l ≠ []) :
    ∃ r M, (onePass l).1 = r ++ [M] ∧ ∀ x ∈ l, x ≤ M := by
  cases l with
  | nil => exact absurd rfl h
  | cons a t => exact onePassAux_last a t

/-- Invariant of the outer loop of `bubbleSort` in `source.cpp`: when the
elements past position `m + 1` are already sorted and dominate the first
`m + 1` elements, the remaining `m` iterations sort the whole list.  Each
pass pushes the maximum of the still-active region to its last slot. -/
theorem cppPasses_sorted_of_inv :
    ∀ (m : Nat) (l : List Int), m + 1 ≤ l.length →
      List.Pairwise (· ≤ ·) (l.drop (m + 1)) →
      (∀ x ∈ l.take (m + 1), ∀ y ∈ l.drop (m + 1), x ≤ y) →
      (cppPasses m l).Perm l ∧ List.Sorted (· ≤ ·) (cppPasses m l) := by
  intro m
  induction m with
  | zero =>
    intro l _ hsuf hcross
    refine ⟨List.Perm.refl _, ?_⟩
    cases l with
    | nil => simp [cppPasses]
    | cons a t =>
      simp only [cppPasses]
      refine List.pairwise_cons.mpr ⟨?_, ?_⟩
      · intro y hy
        exact hcross a (by simp) y (by simpa using hy)
      · simpa using hsuf
  | succ m ih =>
    intro l hlen hsuf hcross
    have hlen2 : m + 2 ≤ l.length := hlen
    have hFlen : (l.take (m + 2)).length = m + 2 := by
      simp [List.length_take, Nat.min_eq_left hlen2]
    have hsplit : l.take (m + 2) ++ l.drop (m + 2) = l := List.take_append_drop _ _
    by_cases hsw : (onePass (l.take (m + 2))).2 = true
    · have hFne : l.take (m + 2) ≠ [] := by
        intro hnil
        rw [hnil] at hFlen
        simp at hFlen
      obtain ⟨r, M, hr, hM⟩ := onePass_last (l.take (m + 2)) hFne
      have hplen : (onePass (l.take (m + 2))).1.length = m + 2 := by
        rw [(onePass_perm _).length_eq, hFlen]
      have hrlen : r.length = m + 1 := by
        rw [hr] at hplen
        simpa using hplen
      have hMF : M ∈ l.take (m + 2) := by
        refine (onePass_perm _).subset ?_
        rw [hr]
        simp
      have hrF : ∀ x ∈ r, x ∈ l.take (m + 2) := by
        intro x hx
        refine (onePass_perm _).subset ?_
        rw [hr]
        exact List.mem_append_left _ hx
      have hP : (passOnFirst l (m + 2)).1 = r ++ ([M] ++ l.drop (m + 2)) := by
        simp [passOnFirst, hr, List.append_assoc]
      have hPperm : (passOnFirst l (m + 2)).1.Perm l := by
        have h1 : ((onePass (l.take (m + 2))).1 ++ l.drop (m + 2)).Perm
            (l.take (m + 2) ++ l.drop (m + 2)) :=
          (onePass_perm _).append_right _
        rw [hsplit] at h1
        exact h1
      have hPlen : (passOnFirst l (m + 2)).1.length = l.length := hPperm.length_eq
      have hdropP : (passOnFirst l (m + 2)).1.drop (m + 1) = M :: l.drop (m + 2) := by
        rw [hP, List.drop_left' hrlen]
        rfl
      have htakeP : (passOnFirst l (m + 2)).1.take (m + 1) = r := by
        rw [hP, List.take_left' hrlen]
      have hsuf' : List.Pairwise (· ≤ ·) ((passOnFirst l (m + 2)).1.drop (m + 1)) := by
        rw [hdropP]
        refine List.pairwise_cons.mpr ⟨?_, hsuf⟩
        intro y hy
        exact hcross M hMF y hy
      have hcross' : ∀ x ∈ (passOnFirst l (m + 2)).1.take (m + 1),
          ∀ y ∈ (passOnFirst l (m + 2)).1.drop (m + 1), x ≤ y := by
        rw [hdropP, htakeP]
        intro x hx y hy
        rcases List.mem_cons.mp hy with rfl | hy
        · exact hM x (hrF x hx)
        · exact hcross x (hrF x hx) y hy
      obtain ⟨hperm, hsorted⟩ := ih (passOnFirst l (m + 2)).1
        (by rw [hPlen]; omega) hsuf' hcross'
      have hsw2 : (passOnFirst l (m + 2)).2 = true := hsw
      constructor
      · simpa [cppPasses, hsw2] using hperm.trans hPperm
      · simpa [cppPasses, hsw2] using hsorted
    · have hsw' : (onePass (l.take (m + 2))).2 = false := by simpa using hsw
      have heq := onePass_eq_of_not_swapped _ hsw'
      have hchain := onePass_chain_of_not_swapped _ hsw'
      have hP : (passOnFirst l (m + 2)).1 = l := by
        simp [passOnFirst, heq, hsplit]
      have hsw2 : (passOnFirst l (m + 2)).2 = false := hsw'
      constructor
      · simp [cppPasses, hsw2, hP]
      · have hsorted : List.Sorted (· ≤ ·) l := by
          rw [← hsplit]
          refine (List.pairwise_append).mpr ⟨?_, hsuf, ?_⟩
          · exact List.chain'_iff_pairwise.mp hchain
          · intro x hx y hy
            exact hcross x hx y hy
        simp [cppPasses, hsw2, hP, hsorted]

theorem bubbleSort_perm_sorted (l : List Int) :
    (bubbleSort l).Perm l ∧ List.Sorted (· ≤ ·) (bubbleSort l) := by
  cases l with
  | nil => exact ⟨List.Perm.refl _, by simp [bubbleSort, cppPasses]⟩
  | cons a t =>
    have hdrop : (a :: t).drop (t.length + 1) = [] :=
      List.drop_eq_nil_of_le (by simp)
    have := cppPasses_sorted_of_inv t.length (a :: t) (by simp)
      (by rw [hdrop]; exact List.Pairwise.nil)
      (by rw [hdrop]; intro x _ y hy; simp at hy)
    simpa [bubbleSort] using this

theorem bubbleSort_perm (l : List Int) : (bubbleSort l).Perm l :=
  (bubbleSort_perm_sorted l).1

theorem bubbleSort_sorted (l : List Int) : List.Sorted (· ≤ ·) (bubbleSort l) :=
  (bubbleSort_perm_sorted l).2

theorem bubbleSort_of_chain (l : List Int) (h : List.Chain' (· ≤ ·) l) :
    bubbleSort l = l := by
  cases l with
  | nil => rfl
  | cons a t =>
    cases t with
    | nil => rfl
    | cons b t2 =>
      have htake : (a :: b :: t2).take (t2.length + 2) = a :: b :: t2 :=
        List.take_of_length_le (by simp)
      have hdrop : (a :: b :: t2).drop (t2.length + 2) = [] :=
        List.drop_eq_nil_of_le (by simp)
      have hp := onePass_of_chain _ h
      have hlen : (a :: b :: t2).length - 1 = t2.length + 1 := by simp
      rw [bubbleSort, hlen]
      simp [cppPasses, passOnFirst, htake, hdrop, hp]

theorem convertTokens_fail {ts : List (List Char)} {t : List Char}
    (ht : t ∈ ts) (hf : (strtol t).2 = true) : convertTokens ts = none := by
  induction ts with
  | nil => simp at ht
  | cons u ts ih =>
    rcases List.mem_cons.mp ht with rfl | ht
    · simp [convertTokens, hf]
    · by_cases hu : (strtol u).2 = true
      · simp [convertTokens, hu]
      · have hu' : (strtol u).2 = false := by simpa using hu
        simp [convertTokens, hu', ih ht]

theorem strtol_overflow (t : List Char)
    (h : numVal t < LONG_MIN ∨ LONG_MAX < numVal t) : (strtol t).2 = true := by
  have hd : numDigits t ≠ [] := by
    intro hnil
    have h0 : numVal t = 0 := by simp [numVal, hnil, digitsToNat]
    rw [h0] at h
    rcases h with h | h
    · rw [LONG_MIN] at h
      omega
    · rw [LONG_MAX] at h
      omega
  rcases h with h | h
  · simp [strtol, hd, h]
  · have hmin : ¬ numVal t < LONG_MIN := by
      have : LONG_MIN ≤ LONG_MAX := by decide
      omega
    simp [strtol, hd, hmin, h]

theorem parse_list_none_of_no_comma (cs : List Char) (h : countCommas cs = 0) :
    parse_list cs = none := by
  simp [parse_list, h]

theorem parse_list_overflow (cs t : List Char) (ht : t ∈ strtokAll cs)
    (h : numVal t < LONG_MIN ∨ LONG_MAX < numVal t) : parse_list cs = none := by
  have hconv := convertTokens_fail ht (strtol_overflow t h)
  by_cases hc : countCommas cs = 0
  · simp [parse_list, hc]
  · simp [parse_list, hc, hconv]

theorem parse_list_some (cs : List Char) (n : Nat) (vals : List Int)
    (h : parse_list cs = some (n, vals)) :
    n = countCommas cs + 1 ∧ countCommas cs ≠ 0 ∧
      convertTokens (strtokAll cs) = some vals := by
  by_cases hc : countCommas cs = 0
  · simp [parse_list, hc] at h
  · cases hconv : convertTokens (strtokAll cs) with
    | none => simp [parse_list, hc, hconv] at h
    | some vs =>
      simp [parse_list, hc, hconv] at h
      exact ⟨h.1.symm, hc, congrArg some h.2⟩

theorem parsedArray_full (junk : Nat → Int) (n : Nat) (vals : List Int)
    (h : vals.length = n) : parsedArray junk n vals = vals := by
  simp [parsedArray, h]

theorem cMain_usage_eq (junk : Nat → Int) (s : String) (rest : List String)
    (h : parse_list s.data = none) :
    cMain junk (s :: rest) = ⟨"", usageMsg, 1⟩ := by
  simp [cMain, h]

theorem cMain_success_eq (junk : Nat → Int) (s : String) (rest : List String)
    (n : Nat) (vals : List Int) (h : parse_list s.data = some (n, vals)) :
    cMain junk (s :: rest)
      = ⟨print_array (bubble_sort (parsedArray junk n vals)), "", 0⟩ := by
  simp [cMain, h]

theorem cppMain_cout_exit0 (args : List String) :
    (cppMain args).err = "" ∧ (cppMain args).exit = 0 := by
  match args with
  | [] => exact ⟨rfl, rfl⟩
  | [s] =>
    by_cases h : (cppNumbers s.data).length < 2
    · simp [cppMain, h]
    · simp [cppMain, h]
  | s :: u :: rest => exact ⟨rfl, rfl⟩

/-- C1: whenever the C parser accepts the input as a full list — a value was
written for each of the `commas + 1` reported slots, which forces at least
two integers — the line the program prints is exactly the bubble-sorted
array, and that array is a permutation of the parsed values in
non-decreasing order; the C++ `bubbleSort` sorts the same values to a
sorted permutation as well. -/
theorem claim1_printed_sorted_permutation (junk : Nat → Int) (s : String)
    (n : Nat) (vals : List Int)
    (hp : parse_list s.data = some (n, vals)) (hfull : vals.length = n) :
    (cMain junk [s]).out = print_array (bubble_sort vals) ∧
      (cMain junk [s]).exit = 0 ∧ 2 ≤ vals.length ∧
      (bubble_sort vals).Perm vals ∧ List.Sorted (· ≤ ·) (bubble_sort vals) ∧
      (bubbleSort vals).Perm vals ∧ List.Sorted (· ≤ ·) (bubbleSort vals) := by
  have hrun := cMain_success_eq junk s [] n vals hp
  have harr := parsedArray_full junk n vals hfull
  obtain ⟨hn, hc, -⟩ := parse_list_some s.data n vals hp
  refine ⟨?_, ?_, ?_, bubble_sort_perm vals, bubble_sort_sorted vals,
    bubbleSort_perm vals, bubbleSort_sorted vals⟩
  · rw [hrun, harr]
  · rw [hrun]
  · omega

/-- Witness for C1 at the specification's own example input `"5,3,1,2,4"`. -/
theorem claim1_witness :
    parse_list ("5,3,1,2,4".data) = some (5, [5, 3, 1, 2, 4]) ∧
      (cMain (fun _ => 0) ["5,3,1,2,4"]).out
        = print_array (bubble_sort [5, 3, 1, 2, 4]) ∧
      (bubble_sort [5, 3, 1, 2, 4]).Perm [5, 3, 1, 2, 4] ∧
      List.Sorted (· ≤ ·) (bubble_sort [5, 3, 1, 2, 4]) := by
  have h := claim1_printed_sorted_permutation (fun _ => 0) "5,3,1,2,4"
    5 [5, 3, 1, 2, 4] (by decide) (by decide)
  exact ⟨by decide, h.1, h.2.2.2.1, h.2.2.2.2.1⟩

/-- C2 is false of the code: on the argument `"a,b"` the parse does not
fail.  `strtol` leaves `errno` untouched when it converts no digits and
returns 0, so `parse_list` returns the two-element array `[0, 0]` and the
run prints `0, 0` and exits 0 — not the usage path with exit code 1 the
claim demands. -/
theorem claim2_counterexample :
    parse_list ("a,b".data) = some (2, [0, 0]) ∧
      cMain (fun _ => 0) ["a,b"] = ⟨"0, 0\n", "", 0⟩ := by
  exact ⟨by decide, by decide⟩

/-- C2 (amended): a non-numeric token does not make the parse fail: `strtol`
converts it to 0 with `errno` untouched, so the token contributes the value
0; in particular `"a,b"` parses as `[0, 0]` and the program prints `0, 0`
and exits 0.  (Only out-of-range tokens make the parse fail; see C7.) -/
theorem claim2_nonnumeric_token_becomes_zero (junk : Nat → Int)
    (t : List Char) (h : numDigits t = []) :
    strtol t = (0, false) ∧
      parse_list ("a,b".data) = some (2, [0, 0]) ∧
      cMain junk ["a,b"] = ⟨"0, 0\n", "", 0⟩ := by
  refine ⟨by simp [strtol, h], by decide, ?_⟩
  rfl

/-- Witness for the amended C2 at the non-numeric token `"a"`. -/
theorem claim2_witness :
    numDigits ("a".data) = [] ∧ strtol ("a".data) = (0, false) :=
  ⟨by decide,
    (claim2_nonnumeric_token_becomes_zero (fun _ => 0) ("a".data) (by decide)).1⟩

/-- C3 is false of the C++ fixture: a run with no argument is a usage
failure (it prints the fixed usage message), yet it exits with code 0 and
the message goes to standard output — standard error stays empty. -/
theorem claim3_counterexample :
    (cppMain []).out = usageMsg ∧ (cppMain []).err = "" ∧
      (cppMain []).exit = 0 := by
  exact ⟨by decide, by decide, by decide⟩

/-- C3 (amended): the C fixture honours the claimed contract in both
directions — a run exits with code 1 exactly when it is a usage/parse
failure (no argument, or the first argument fails to parse); every such
failure run has exit code 1 with precisely the usage message on standard
error and an empty standard output; every other run is a success run: it
exits 0 with empty standard error and prints exactly the bubble-sorted
parsed array, a sorted permutation of that array, on standard output.  The
C++ fixture does not honour the contract: it always exits 0 and writes
everything, the usage message included, to standard output. -/
theorem claim3_streams_and_exit_codes (junk : Nat → Int) (args : List String) :
    ((cMain junk args).exit = 1 ↔
        args = [] ∨ ∃ s rest, args = s :: rest ∧ parse_list s.data = none) ∧
      (args = [] → cMain junk args = ⟨"", usageMsg, 1⟩) ∧
      (∀ s rest, args = s :: rest → parse_list s.data = none →
        cMain junk args = ⟨"", usageMsg, 1⟩) ∧
      ((cMain junk args).exit = 1 ∨
        ∃ s rest n vals, args = s :: rest ∧ parse_list s.data = some (n, vals) ∧
          cMain junk args
            = ⟨print_array (bubble_sort (parsedArray junk n vals)), "", 0⟩ ∧
          (bubble_sort (parsedArray junk n vals)).Perm (parsedArray junk n vals) ∧
          List.Sorted (· ≤ ·) (bubble_sort (parsedArray junk n vals))) ∧
      (cppMain args).err = "" ∧ (cppMain args).exit = 0 := by
  cases args with
  | nil =>
    refine ⟨?_, fun _ => rfl, ?_, Or.inl rfl, cppMain_cout_exit0 []⟩
    · exact ⟨fun _ => Or.inl rfl, fun _ => rfl⟩
    · intro s rest h
      exact absurd h (by simp)
  | cons s rest =>
    cases hp : parse_list s.data with
    | none =>
      have hrun := cMain_usage_eq junk s rest hp
      refine ⟨⟨fun _ => Or.inr ⟨s, rest, rfl, hp⟩, fun _ => by rw [hrun]⟩,
        fun h => absurd h (by simp), ?_, Or.inl (by rw [hrun]),
        cppMain_cout_exit0 _⟩
      intro s' rest' heq _
      obtain ⟨rfl, rfl⟩ : s' = s ∧ rest' = rest := by
        exact ⟨(List.cons.injEq .. ▸ heq).1.symm, (List.cons.injEq .. ▸ heq).2.symm⟩
      exact hrun
    | some nv =>
      obtain ⟨n, vals⟩ := nv
      have hrun := cMain_success_eq junk s rest n vals hp
      refine ⟨⟨fun h => ?_, fun h => ?_⟩, fun h => absurd h (by simp), ?_,
        Or.inr ⟨s, rest, n, vals, rfl, hp, hrun, bubble_sort_perm _,
          bubble_sort_sorted _⟩,
        cppMain_cout_exit0 _⟩
      · rw [hrun] at h
        exact absurd h (by simp)
      · rcases h with h | ⟨s', rest', heq, hnone⟩
        · exact absurd h (by simp)
        · obtain rfl : s' = s := (List.cons.injEq .. ▸ heq).1.symm
          rw [hp] at hnone
          exact absurd hnone (by simp)
      · intro s' rest' heq hnone
        obtain rfl : s' = s := (List.cons.injEq .. ▸ heq).1.symm
        rw [hp] at hnone
        exact absurd hnone (by simp)

/-- C4 is false of the code: an invocation with two arguments (argument
count 2 ≠ 1) does not take the usage path — the C driver only checks
`argc < 2`, parses the first argument, sorts and prints it, and exits 0. -/
theorem claim4_counterexample :
    cMain (fun _ => 0) ["2,1", "0"] = ⟨"1, 2\n", "", 0⟩ := by
  decide

/-- C4 (amended): the C driver takes the usage path — usage message to
standard error, exit code 1, no parsing, sorting or printing — exactly when
no argument follows the program name (`argc < 2`); when more than one
argument is supplied, the extras are ignored and the first is processed
normally. -/
theorem claim4_usage_iff_no_argument (junk : Nat → Int) :
    cMain junk [] = ⟨"", usageMsg, 1⟩ ∧
      ∀ (s : String) (rest : List String),
        cMain junk (s :: rest) = cMain junk [s] := by
  refine ⟨rfl, fun s rest => ?_⟩
  cases hp : parse_list s.data with
  | none => rw [cMain_usage_eq junk s rest hp, cMain_usage_eq junk s [] hp]
  | some nv =>
    obtain ⟨n, vals⟩ := nv
    rw [cMain_success_eq junk s rest n vals hp, cMain_success_eq junk s [] n vals hp]

/-- C5: the C parser accepts a bare comma as delimiter: the argument
`"5,3,1,2,4"` parses to the five integers and the run prints the line
`1, 2, 3, 4, 5` and exits 0. -/
theorem claim5_bare_comma_accepted (junk : Nat → Int) :
    parse_list ("5,3,1,2,4".data) = some (5, [5, 3, 1, 2, 4]) ∧
      cMain junk ["5,3,1,2,4"] = ⟨"1, 2, 3, 4, 5\n", "", 0⟩ := by
  exact ⟨by decide, rfl⟩

/-- C6 is false as a universal statement: the input `"3,"` yields a single
token, fewer than two, yet `parse_list` does not fail — it reports two
elements (commas + 1) with only one value written, and the run exits 0,
printing the written value next to whatever the unwritten slot held. -/
theorem claim6_counterexample :
    strtokAll ("3,".data) = [['3']] ∧
      parse_list ("3,".data) = some (2, [3]) ∧
      cMain (fun _ => 7) ["3,"] = ⟨"3, 7\n", "", 0⟩ := by
  exact ⟨by decide, by decide, by decide⟩

/-- C6 (amended): an input with no comma (hence at most one token) fails to
parse and the run takes the usage path with exit code 1 — in particular the
single number `"3"` does; but with a comma present, producing fewer than
two tokens does not make the parse fail (see the counterexample `"3,"`). -/
theorem claim6_no_comma_fails (junk : Nat → Int) (s : String)
    (h : countCommas s.data = 0) :
    parse_list s.data = none ∧ cMain junk [s] = ⟨"", usageMsg, 1⟩ := by
  have hp := parse_list_none_of_no_comma s.data h
  exact ⟨hp, cMain_usage_eq junk s [] hp⟩

/-- Witness for the amended C6 at the specification's example `"3"`. -/
theorem claim6_witness :
    countCommas ("3".data) = 0 ∧
      parse_list ("3".data) = none ∧
      cMain (fun _ => 0) ["3"] = ⟨"", usageMsg, 1⟩ := by
  have h := claim6_no_comma_fails (fun _ => 0) "3" (by decide)
  exact ⟨by decide, h.1, h.2⟩

/-- C7: a token whose value lies outside the 64-bit `long` range makes
`strtol` set `errno` to `ERANGE`, so `parse_list` fails and the run takes
the usage path: usage message to standard error, exit code 1. -/
theorem claim7_overflow_fails (junk : Nat → Int) (s : String) (t : List Char)
    (ht : t ∈ strtokAll s.data)
    (hov : numVal t < LONG_MIN ∨ LONG_MAX < numVal t) :
    parse_list s.data = none ∧ cMain junk [s] = ⟨"", usageMsg, 1⟩ := by
  have hp := parse_list_overflow s.data t ht hov
  exact ⟨hp, cMain_usage_eq junk s [] hp⟩

/-- Witness for C7 at `"9223372036854775808,1"`, whose first token is
`2 ^ 63`, one past `LONG_MAX`. -/
theorem claim7_witness :
    ("9223372036854775808".data ∈ strtokAll ("9223372036854775808,1".data)) ∧
      LONG_MAX < numVal ("9223372036854775808".data) ∧
      parse_list ("9223372036854775808,1".data) = none := by
  refine ⟨by decide, by decide, ?_⟩
  exact (claim7_overflow_fails (fun _ => 0) "9223372036854775808,1"
    ("9223372036854775808".data) (by decide) (Or.inr (by decide))).1

/-- C8: the sorter terminates on every finite input: the swap-flag loop of
`bubble_sort` exits within `inv l + 1` passes (each swapping pass strictly
decreases the inversion count), and the pass it exits after performs no
swap. -/
theorem claim8_loop_terminates (l : List Int) :
    bubbleLoop (inv l + 1) l = some (bubble_sort l) ∧
      (onePass (bubble_sort l)).2 = false := by
  obtain ⟨hloop, -, hchain⟩ := bubble_sort_run l
  exact ⟨hloop, by rw [onePass_of_chain _ hchain]⟩

/-- C9: sorting is idempotent — on a sequence already sorted in
non-decreasing order, both the C `bubble_sort` and the C++ `bubbleSort`
return the sequence unchanged (their first pass performs no swap). -/
theorem claim9_sort_idempotent (l : List Int)
    (h : List.Sorted (· ≤ ·) l) :
    bubble_sort l = l ∧ bubbleSort l = l := by
  have hc : List.Chain' (· ≤ ·) l := List.chain'_iff_pairwise.mpr h
  exact ⟨bubble_sort_of_chain l hc, bubbleSort_of_chain l hc⟩

/-- Witness for C9 at the sorted list `[-3, 0, 0, 7]`. -/
theorem claim9_witness :
    List.Sorted (· ≤ ·) ([-3, 0, 0, 7] : List Int) ∧
      bubble_sort [-3, 0, 0, 7] = [-3, 0, 0, 7] ∧
      bubbleSort [-3, 0, 0, 7] = [-3, 0, 0, 7] := by
  have h : List.Sorted (· ≤ ·) ([-3, 0, 0, 7] : List Int) := by decide
  exact ⟨h, (claim9_sort_idempotent _ h).1, (claim9_sort_idempotent _ h).2⟩

/-- C10: the C++ format check accepts only arguments with `", "` at every
third position starting at index 1, so the well-formed list `"10, 20"` of
two integers separated by `", "` — the first one multi-digit — fails the
check (the C parser, by contrast, reads it as `[10, 20]`), and the C++ run
takes the usage path instead of sorting and printing. -/
theorem claim10_cpp_rejects_multidigit :
    commaSeparated ("10, 20".data) = false ∧
      parse_list ("10, 20".data) = some (2, [10, 20]) ∧
      cppMain ["10, 20"] = ⟨usageMsg, "", 0⟩ := by
  exact ⟨by decide, by decide, by decide⟩

end SortDemo
